import Mathlib

/-!
# Verification of the coding-agent turn-execution core

Shallow embedding of the agent's action parser (`app/core/actions/parsing/parser.py`),
action dispatcher (`app/core/actions/parsing/handler.py`), LLM client retry loop
(`app/llm/client.py`), memory manager (`app/core/agents/memory_manager.py`),
orchestrator turn loop (`app/core/agents/orchestrator.py`) and the Redis
create-if-absent store (`app/core/storage/redis_store.py`), together with proofs
about the behaviours the specification describes.

External effects (LLM completions, the sandbox executor, the task store) are
modelled as oracle functions supplied to the embedded code; `Except String α`
stands for Python code that either returns normally (`.ok`) or raises an
exception whose `str(e)` is the `.error` payload.
-/

set_option maxHeartbeats 1000000

namespace Agent

/-! ## Python string primitives

Python's `str.strip`, `str.isspace` and the regex class `\s` treat the ASCII
whitespace characters space, tab, newline, carriage return, vertical tab and
form feed as whitespace (the relevant code paths only handle such text, so the
wider Unicode classes coincide on everything modelled here). -/

def spaceChar (c : Char) : Bool :=
  c == ' ' || c == '\t' || c == '\n' || c == '\r' || c == Char.ofNat 11 || c == Char.ofNat 12

/-- Regex `\w` (ASCII fragment): letters, digits and underscore. -/
def wordChar (c : Char) : Bool :=
  c.isAlphanum || c == '_'

/-- Result of `str.strip()` on a character list. -/
def trimChars (l : List Char) : List Char :=
  ((l.dropWhile spaceChar).reverse.dropWhile spaceChar).reverse

/-- Python `str.strip()`. -/
def pyStrip (s : String) : String :=
  String.mk (trimChars s.toList)

/-- Python `str.lstrip()`. -/
def pyLstrip (s : String) : String :=
  String.mk (s.toList.dropWhile spaceChar)

/-- Python `str.rstrip()`. -/
def pyRstrip (s : String) : String :=
  String.mk ((s.toList.reverse.dropWhile spaceChar).reverse)

/-- Does `pat` occur at the head of `s`? -/
def matchesHere : List Char → List Char → Bool
  | [], _ => true
  | _ :: _, [] => false
  | p :: ps, c :: cs => p == c && matchesHere ps cs

/-- Index of the first occurrence of `pat` in `s` (substring search). -/
def findSubIdx (pat : List Char) : List Char → Option Nat
  | [] => if pat.isEmpty then some 0 else none
  | c :: rest =>
    if matchesHere pat (c :: rest) then some 0
    else (findSubIdx pat rest).map (· + 1)

/-- Python `needle in haystack` substring test. -/
def strContainsSub (haystack needle : String) : Bool :=
  (findSubIdx needle.toList haystack.toList).isSome

/-- Python `line.index(':')`: position of the first colon (the callers only
invoke it after checking `':' in line`, so the `none` case is unreachable
there). -/
def firstColonIdx (s : String) : Option Nat :=
  findSubIdx [':'] s.toList

/-- Number of leading whitespace characters, Python's
`len(line) - len(line.lstrip())`. -/
def indentOf (s : String) : Nat :=
  (s.toList.takeWhile spaceChar).length

/-- Python `s.split(sep)` for a single-character separator (empty pieces
preserved; `"".split(sep) == ['']`). -/
def splitOnCharAux (sep : Char) : List Char → List Char → List String
  | [], acc => [String.mk acc.reverse]
  | c :: rest, acc =>
    if c == sep then String.mk acc.reverse :: splitOnCharAux sep rest []
    else splitOnCharAux sep rest (c :: acc)

def splitOnChar (sep : Char) (s : String) : List String :=
  splitOnCharAux sep s.toList []

/-- Python `c in s` for a single character. -/
def strContainsChar (s : String) (c : Char) : Bool :=
  s.toList.any (· == c)

/-- Python `s.startswith(pre)`. -/
def strStartsWith (s pre : String) : Bool :=
  matchesHere pre.toList s.toList

/-- Python `s.endswith(suf)`. -/
def strEndsWith (s suf : String) : Bool :=
  matchesHere suf.toList.reverse s.toList.reverse

/-- Python `s.lower()` (ASCII). -/
def pyLower (s : String) : String :=
  String.mk (s.toList.map Char.toLower)

/-- Python `str.splitlines()` length for `\n`-separated text: number of lines,
not counting a trailing empty piece (`"a\n".splitlines() == ['a']`; the
embedded strings never contain the exotic line terminators Python also
recognises). -/
def pySplitlinesCount (s : String) : Nat :=
  if s = "" then 0
  else
    let parts := splitOnChar '\n' s
    if parts.getLast? = some "" then parts.length - 1 else parts.length

/-! ## Action data model (`app/core/actions/entities/actions.py`)

One constructor per pydantic action class.  `RecallAction` is referenced by
the orchestrator and the handler but its class definition is absent from the
entities module; the `recall` variant below is *modelled from the spec*:
`Recall{turn_range?, query?, limit}` (spec section 3), with the search default
`limit = 5` used by `MemoryManager.search_memory`. -/

inductive Action where
  | read (file_path : String) (offset limit : Option Int)
  | write (file_path content : String)
  | edit (file_path old_string new_string : String) (replace_all : Bool)
  | bash (cmd : String) (timeout_secs : Int)
  | finish (message : String)
  | grep (pattern path : String) (includePat : Option String)
  | glob (pattern path : String)
  | task_create (agent_type title description : String) (max_turns : Int)
      (context_refs : List String) (context_bootstrap : List String) (auto_launch : Bool)
  | launch_subagent (task_id : String)
  | report (contexts : List String) (comments : String)
  | recall (turn_range query : Option String) (limit : Nat)
  deriving DecidableEq, Repr

/-- Python `type(action).__name__`. -/
def actionTypeName : Action → String
  | .read .. => "ReadAction"
  | .write .. => "WriteAction"
  | .edit .. => "EditAction"
  | .bash .. => "BashAction"
  | .finish .. => "FinishAction"
  | .grep .. => "GrepAction"
  | .glob .. => "GlobAction"
  | .task_create .. => "TaskCreateAction"
  | .launch_subagent .. => "LaunchSubagentAction"
  | .report .. => "ReportAction"
  | .recall .. => "RecallAction"

def isFinishAct : Action → Bool
  | .finish _ => true
  | _ => false

def isRecallAct : Action → Bool
  | .recall .. => true
  | _ => false

/-- The action classes appearing as values of `ACTION_TYPE_MAP`. -/
inductive ActionClass where
  | readC | writeC | editC | bashC | finishC | grepC | globC
  | taskCreateC | launchC | reportC
  deriving DecidableEq, Repr

/-- `ACTION_TYPE_MAP`: tag name (already lower-cased by the caller) to action
class, including the `file`/`search`/`find` aliases.  `recall` has no entry. -/
def actionTypeMap : String → Option ActionClass
  | "read" => some .readC
  | "file" => some .readC
  | "write" => some .writeC
  | "edit" => some .editC
  | "bash" => some .bashC
  | "finish" => some .finishC
  | "grep" => some .grepC
  | "search" => some .grepC
  | "glob" => some .globC
  | "find" => some .globC
  | "task_create" => some .taskCreateC
  | "launch_subagent" => some .launchC
  | "report" => some .reportC
  | _ => none

/-! ## Tag-block scanner

Embedding of `re.compile(r'<(\w+)>\s*(.*?)\s*</\1>', re.DOTALL).findall`:
repeatedly find the leftmost match.  At a `<` the greedy `\w+` must be the
maximal word-character run followed immediately by `>` (no backtracking can
help because `>` is not a word character); the lazy body then ends at the
*first* occurrence of `</` + the same text as the opening name + `>` — the
backreference `\1` matches case-sensitively because `re.IGNORECASE` is not
set.  The `\s*` borders strip whitespace from both ends of the captured body.
On a failed match attempt the scan restarts one character further right. -/
def findTagMatchesAux (fuel : Nat) : List Char → List (String × String) :=
  match fuel with
  | 0 => fun _ => []
  | fuel + 1 => fun l =>
    match l with
    | [] => []
    | c :: rest =>
      if c == '<' then
        let w := rest.takeWhile wordChar
        if !w.isEmpty && ((rest.drop w.length).head? == some '>') then
          let afterOpen := rest.drop (w.length + 1)
          let closePat := '<' :: '/' :: (w ++ ['>'])
          match findSubIdx closePat afterOpen with
          | some idx =>
            (String.mk w, String.mk (trimChars (afterOpen.take idx)))
              :: findTagMatchesAux fuel (afterOpen.drop (idx + closePat.length))
          | none => findTagMatchesAux fuel rest
        else findTagMatchesAux fuel rest
      else findTagMatchesAux fuel rest

/-- All `<name>body</name>` blocks of a text, in document order, with the body
whitespace-trimmed; the tag name is returned as matched (original case).  The
fuel argument makes the recursion structural; every recursive call shortens
the character list by at least one, so fuel equal to the input length never
runs out. -/
def findTagMatches (s : String) : List (String × String) :=
  findTagMatchesAux s.toList.length s.toList

/-! ## Key/value mini-language (`SimpleActionParser._parse_params`)

The Python loop walks the lines with an index `i`; the three value cases each
run an inner loop that consumes following lines.  Each inner loop is embedded
as a function returning the collected value lines together with the number of
input lines it consumed; the main loop then drops that many lines. -/

/-- Case 1 (`key: |` block literal): consume lines until a top-level
`key: value` line (non-indented, containing `": "`).  The base indentation is
fixed by the first line whose `strip()` is non-empty; lines seen while it is
still undetermined contribute nothing.  Returns (content lines, consumed). -/
def takeBlockLiteral (baseIndent : Option Nat) : List String → List String × Nat
  | [] => ([], 0)
  | next :: rest =>
    if next ≠ "" && !spaceChar (next.toList.headD ' ') && strContainsSub next ": " then
      ([], 0)
    else
      let bi := if baseIndent.isNone && pyStrip next ≠ "" then some (indentOf next) else baseIndent
      let r := takeBlockLiteral bi rest
      match bi with
      | none => (r.1, r.2 + 1)
      | some b =>
        ((if next.length ≥ b then String.mk (next.toList.drop b) else pyLstrip next) :: r.1,
         r.2 + 1)

/-- Case 2 (`key:` with empty value): collect the stripped text of following
non-blank lines until a top-level key line (non-empty when stripped, contains
a colon, first character not whitespace). -/
def takeEmptyValueLines : List String → List String × Nat
  | [] => ([], 0)
  | next :: rest =>
    let ns := pyStrip next
    if ns ≠ "" && strContainsChar next ':' && !spaceChar (next.toList.headD ' ') then ([], 0)
    else
      let r := takeEmptyValueLines rest
      (if ns ≠ "" then ns :: r.1 else r.1, r.2 + 1)

/-- Case 3 (same-line value): append stripped continuation lines, skipping
blank lines, until a line that contains a colon and starts non-indented. -/
def takeSoftContinuation : List String → List String × Nat
  | [] => ([], 0)
  | next :: rest =>
    let ns := pyStrip next
    if ns = "" then
      let r := takeSoftContinuation rest
      (r.1, r.2 + 1)
    else if strContainsChar next ':' && !spaceChar (next.toList.headD ' ') then ([], 0)
    else
      let r := takeSoftContinuation rest
      (ns :: r.1, r.2 + 1)

/-- Python `key.strip('"\'')`: remove any leading/trailing quote characters. -/
def stripQuoteSet (s : String) : String :=
  let qc := fun c => c == '"' || c == '\''
  String.mk (((s.toList.dropWhile qc).reverse.dropWhile qc).reverse)

/-- `params[key] = value` on an insertion-ordered dict. -/
def setParam (ps : List (String × String)) (k v : String) : List (String × String) :=
  if ps.any (fun p => p.1 == k) then ps.map (fun p => if p.1 == k then (k, v) else p)
  else ps ++ [(k, v)]

/-- Strip one layer of matching surrounding quotes (`"…"` or `'…'`). -/
def unquoteValue (s : String) : String :=
  let l := s.toList
  if (strStartsWith s "\"" && strEndsWith s "\"") || (strStartsWith s "'" && strEndsWith s "'") then
    String.mk ((l.drop 1).take (l.length - 2))
  else s

def parseParamsGo (fuel : Nat) : List String → List (String × String) → List (String × String) :=
  match fuel with
  | 0 => fun _ ps => ps
  | fuel + 1 => fun lines ps =>
    match lines with
    | [] => ps
    | line :: rest =>
      let stripped := pyStrip line
      if stripped = "" || strStartsWith stripped "#" then parseParamsGo fuel rest ps
      else if !(strContainsChar line ':') then parseParamsGo fuel rest ps
      else
        match firstColonIdx line with
        | none => parseParamsGo fuel rest ps
        | some colonIdx =>
          let key := stripQuoteSet (pyStrip (String.mk (line.toList.take colonIdx)))
          let restVal := pyStrip (String.mk (line.toList.drop (colonIdx + 1)))
          if restVal = "|" then
            let r := takeBlockLiteral none rest
            parseParamsGo fuel (rest.drop r.2)
              (setParam ps key (pyRstrip (String.intercalate "\n" r.1)))
          else if restVal = "" then
            let r := takeEmptyValueLines rest
            parseParamsGo fuel (rest.drop r.2) (setParam ps key (String.intercalate "\n" r.1))
          else
            let value := unquoteValue restVal
            let r := takeSoftContinuation rest
            parseParamsGo fuel (rest.drop r.2)
              (setParam ps key (String.intercalate "\n" (value :: r.1)))

/-- `SimpleActionParser._parse_params`.  Fuel makes the loop structural; each
iteration consumes at least the current line, so fuel equal to the number of
lines never runs out. -/
def parseParams (content : String) : List (String × String) :=
  let lines := splitOnChar '\n' content
  parseParamsGo lines.length lines []

/-! ## Pydantic-style construction (`action_class(**params)`)

The parameter parser only produces string values, so construction coerces
strings: `int` fields parse decimal text, `bool` fields accept pydantic's lax
true/false spellings, and `List[...]` fields reject any provided string value
(pydantic raises a validation error for a plain string where a list is
expected), falling back to their empty default when absent.  Error messages
are abridged — no claim inspects their text, only whether a block validates. -/

def lookupParam (ps : List (String × String)) (k : String) : Option String :=
  (ps.find? (fun p => p.1 == k)).map (·.2)

def reqStr (ps : List (String × String)) (field : String) : Except String String :=
  match lookupParam ps field with
  | some v => .ok v
  | none => .error ("field required: " ++ field)

/-- Value of a non-empty all-digit character run. -/
def digitsVal (l : List Char) : Option Nat :=
  if !l.isEmpty && l.all Char.isDigit then
    some (l.foldl (fun n c => n * 10 + (c.toNat - 48)) 0)
  else none

/-- Python `int(s)` after stripping: optional sign then decimal digits
(digit-group underscores are not modelled; no caller produces them). -/
def pyToIntAux : List Char → Option Int
  | '-' :: ds => (digitsVal ds).map (fun n => -(n : Int))
  | '+' :: ds => (digitsVal ds).map (fun n => (n : Int))
  | ds => (digitsVal ds).map (fun n => (n : Int))

def pyToInt (s : String) : Option Int :=
  pyToIntAux (trimChars s.toList)

def pyToBool (s : String) : Option Bool :=
  match pyLower s with
  | "true" | "t" | "yes" | "y" | "on" | "1" => some true
  | "false" | "f" | "no" | "n" | "off" | "0" => some false
  | _ => none

def optIntField (ps : List (String × String)) (field : String) : Except String (Option Int) :=
  match lookupParam ps field with
  | none => .ok none
  | some v =>
    match pyToInt v with
    | some n => .ok (some n)
    | none => .error ("invalid integer: " ++ field)

def intFieldD (ps : List (String × String)) (field : String) (dflt : Int) : Except String Int :=
  match lookupParam ps field with
  | none => .ok dflt
  | some v =>
    match pyToInt v with
    | some n => .ok n
    | none => .error ("invalid integer: " ++ field)

def boolFieldD (ps : List (String × String)) (field : String) (dflt : Bool) : Except String Bool :=
  match lookupParam ps field with
  | none => .ok dflt
  | some v =>
    match pyToBool v with
    | some b => .ok b
    | none => .error ("invalid boolean: " ++ field)

def strFieldD (ps : List (String × String)) (field dflt : String) : String :=
  (lookupParam ps field).getD dflt

def rejectListField (ps : List (String × String)) (field : String) : Except String Unit :=
  match lookupParam ps field with
  | none => .ok ()
  | some _ => .error ("expected a list: " ++ field)

def construct : ActionClass → List (String × String) → Except String Action
  | .readC, ps => do
    let fp ← reqStr ps "file_path"
    let off ← optIntField ps "offset"
    let lim ← optIntField ps "limit"
    return .read fp off lim
  | .writeC, ps => do
    let fp ← reqStr ps "file_path"
    let c ← reqStr ps "content"
    return .write fp c
  | .editC, ps => do
    let fp ← reqStr ps "file_path"
    let old ← reqStr ps "old_string"
    let new ← reqStr ps "new_string"
    let ra ← boolFieldD ps "replace_all" true
    return .edit fp old new ra
  | .bashC, ps => do
    let cmd ← reqStr ps "cmd"
    let t ← intFieldD ps "timeout_secs" 300
    return .bash cmd t
  | .finishC, ps => do
    let m ← reqStr ps "message"
    return .finish m
  | .grepC, ps => do
    let pat ← reqStr ps "pattern"
    let inc := lookupParam ps "include"
    return .grep pat (strFieldD ps "path" ".") inc
  | .globC, ps => do
    let pat ← reqStr ps "pattern"
    return .glob pat (strFieldD ps "path" ".")
  | .taskCreateC, ps => do
    let agentType ← reqStr ps "agent_type"
    if agentType = "explorer" || agentType = "coder" then
      let title ← reqStr ps "title"
      let desc ← reqStr ps "description"
      let mt ← intFieldD ps "max_turns" 20
      let _ ← rejectListField ps "context_refs"
      let _ ← rejectListField ps "context_bootstrap"
      let al ← boolFieldD ps "auto_launch" true
      return .task_create agentType title desc mt [] [] al
    else .error "invalid literal: agent_type"
  | .launchC, ps => do
    let tid ← reqStr ps "task_id"
    return .launch_subagent tid
  | .reportC, ps => do
    let _ ← rejectListField ps "contexts"
    let c ← reqStr ps "comments"
    return .report [] c

/-! ## The parser (`SimpleActionParser`) -/

/-- `SimpleActionParser._parse_single_action`, called with the lower-cased tag
name.  Unknown tags yield `none` (dropped silently); `finish` takes the whole
stripped body as its message; other known tags go through the parameter
parser and pydantic construction, whose validation errors the caller turns
into parse-error strings. -/
def parseSingleAction (tagLower : String) (content : String) : Except String (Option Action) :=
  match actionTypeMap tagLower with
  | none => .ok none
  | some c =>
    if c = ActionClass.finishC then .ok (some (.finish (pyStrip content)))
    else (construct c (parseParams (pyStrip content))).map some

/-- The per-match loop body of `SimpleActionParser.parse`: successful parses
append to the action list, exceptions append one error string, unknown tags
contribute nothing. -/
def parseBlocks : List (String × String) → List Action × List String
  | [] => ([], [])
  | (tag, body) :: rest =>
    let t := pyLower tag
    let r := parseBlocks rest
    match parseSingleAction t body with
    | .ok (some a) => (a :: r.1, r.2)
    | .ok none => r
    | .error e => (r.1, ("Failed to parse <" ++ t ++ ">: " ++ e) :: r.2)

/-- `SimpleActionParser.parse`: returns (actions, errors) in document order. -/
def parse (llmOutput : String) : List Action × List String :=
  parseBlocks (findTagMatches llmOutput)

/-! ## Action dispatcher (`ActionHandler`, `handler.py`)

The individual handler methods perform I/O through the executor / stores, so
each is an oracle returning `Except String String`: `.ok s` is the handler's
result string, `.error e` a raised exception with message `e`.
`_handle_finish`, `_handle_launch_subagent` and `_handle_report` are pure in
the source and are embedded concretely. -/

structure Handlers where
  bashH : String → Int → Except String String
  readH : String → Option Int → Option Int → Except String String
  writeH : String → String → Except String String
  editH : String → String → String → Bool → Except String String
  grepH : String → String → Option String → Except String String
  globH : String → String → Except String String
  taskCreateH : String → String → String → Int → List String → List String →
    Except String String

/-- `ActionHandler._execute_single`: dispatch on the action's runtime type via
the `_action_handlers` dict.  `RecallAction` has no entry in that dict, so a
recall action takes the unknown-type branch (which returns a warning string
and never raises). -/
def executeSingle (h : Handlers) : Action → Except String String
  | .bash cmd t => h.bashH cmd t
  | .read fp off lim => h.readH fp off lim
  | .write fp c => h.writeH fp c
  | .edit fp old new ra => h.editH fp old new ra
  | .grep pat path inc => h.grepH pat path inc
  | .glob pat path => h.globH pat path
  | .finish m => .ok ("✅ FINISHED: " ++ m)
  | .task_create agentType title desc mt refs boot _ =>
    h.taskCreateH agentType title desc mt refs boot
  | .launch_subagent tid =>
    .ok ("⚠️ Subagent launching not yet implemented (task: " ++ tid ++ ")")
  | .report ctxs _ => .ok ("✅ Report received: " ++ toString ctxs.length ++ " contexts")
  | .recall .. => .ok "⚠️ Unknown action type: RecallAction"

/-- The result string recorded for one action: the `try` body's result, or the
failure-prefixed string built in the `except` clause. -/
def singleResult (h : Handlers) (a : Action) : String :=
  match executeSingle h a with
  | .ok r => r
  | .error e => "❌ Error executing " ++ actionTypeName a ++ ": " ++ e

/-- `ActionHandler.execute`: the per-action loop with per-action exception
isolation. -/
def execute (h : Handlers) : List Action → List String
  | [] => []
  | a :: rest => singleResult h a :: execute h rest

/-! ## Write handler (`ActionHandler._handle_write`)

The I/O primitives the method touches are collected in an oracle record; the
control flow (empty-content guard, primary python write with post-write
verification, bash fallback with its own verification, and the `finally`
unlink) is embedded faithfully.  The function returns `Except` because the
`finally` block can itself raise: when creating the temp file failed,
`temp_path` was never bound and `os.path.exists(temp_path)` raises a
`NameError` that replaces the prepared return value. -/

structure WriteEnv where
  /-- `os.makedirs` + `open(..., 'w')` + `f.write`: `.error` = raised exception. -/
  pythonWrite : Except String Unit
  /-- `os.path.exists(file_path)` after the python write. -/
  existsAfter : Bool
  /-- `os.path.getsize(file_path)` after the python write. -/
  fileSize : Nat
  /-- Re-reading the file: the content read back, or a raised exception. -/
  readBack : Except String String
  /-- `tempfile.NamedTemporaryFile` + write: the temp path, or a raised exception. -/
  tempCreate : Except String String
  /-- `executor.execute(mkdir/mv ...)`: (combined output, exit code), or raised. -/
  bashMove : Except String (String × Int)
  /-- `executor.execute(test -f ... && wc -c ...)`: (output, exit code), or raised. -/
  bashVerify : Except String (String × Int)

/-- The bash fallback path of `_handle_write`, entered with the primary
exception's message `e`. -/
def writeFallback (env : WriteEnv) (filePath : String) (e : String) : Except String String :=
  match env.tempCreate with
  | .error _ =>
    -- temp_path unbound; the finally clause raises NameError
    .error "name 'temp_path' is not defined"
  | .ok _ =>
    match env.bashMove with
    | .ok (output, exitCode) =>
      if exitCode = 0 then
        match env.bashVerify with
        | .ok (verifyOutput, verifyCode) =>
          if verifyCode = 0 then
            .ok ("✅ File written (via bash): " ++ filePath ++ "\n" ++ verifyOutput)
          else .ok ("⚠️ File written but verification failed: " ++ filePath)
        | .error e2 => .ok ("❌ All write methods failed: " ++ e ++ " | " ++ e2)
      else .ok ("❌ Failed to write file: " ++ output)
    | .error e2 => .ok ("❌ All write methods failed: " ++ e ++ " | " ++ e2)

/-- `ActionHandler._handle_write`.  Note the content-verification step: a
mismatch between the written and re-read content is only logged as a warning;
the success result is returned regardless. -/
def handleWrite (env : WriteEnv) (filePath content : String) : Except String String :=
  if content = "" || pyStrip content = "" then
    .ok "❌ Write failed: content is empty"
  else
    match env.pythonWrite with
    | .error e => writeFallback env filePath e
    | .ok () =>
      if !env.existsAfter then
        writeFallback env filePath ("File does not exist after write: " ++ filePath)
      else if env.fileSize = 0 then
        writeFallback env filePath ("File is empty after write: " ++ filePath)
      else
        match env.readBack with
        | .error e => writeFallback env filePath e
        | .ok _writtenContent =>
          -- content mismatch only triggers `logger.warning`, no error path
          .ok ("✅ File written: " ++ filePath ++ " (" ++ toString env.fileSize ++
               " bytes, " ++ toString (pySplitlinesCount content) ++ " lines)")

/-! ## LLM client retry loop (`LLMClient.get_completion`, `client.py`)

`attempt i` is the outcome of the i-th API call: a completion, a transient
error (`RateLimitError` / `InternalServerError` / `APIError`), or any other
exception.  The embedding returns the surfaced result together with the list
of backoff sleeps performed (`min(2 ** attempt, 60)` seconds before each
retry; no sleep before re-raising on the last attempt).  If the loop falls
through without returning (only possible with `max_retries = 0`) the Python
function returns `None`; that dead corner is modelled as an error. -/

inductive LLMFailure where
  | transient (msg : String)
  | fatal (msg : String)
  deriving DecidableEq, Repr

def getCompletionLoop (attempt : Nat → Except LLMFailure String) (maxRetries : Nat) :
    Nat → Nat → Except String String × List Nat
  | 0, _ => (.error "None", [])
  | remaining + 1, i =>
    match attempt i with
    | .ok s => (.ok s, [])
    | .error (.transient m) =>
      let wait := min (2 ^ i) 60
      if i < maxRetries - 1 then
        let r := getCompletionLoop attempt maxRetries remaining (i + 1)
        (r.1, wait :: r.2)
      else (.error m, [])
    | .error (.fatal m) => (.error m, [])

/-- `LLMClient.get_completion`; the constructor default is `max_retries = 5`.
The loop `for attempt in range(max_retries)` is run with the remaining
iteration count as structural fuel (`remaining = maxRetries - i` throughout,
so the fuel runs out exactly when the `for` loop would). -/
def getCompletion (attempt : Nat → Except LLMFailure String) (maxRetries : Nat) :
    Except String String × List Nat :=
  getCompletionLoop attempt maxRetries maxRetries 0

/-! ## Conversation messages -/

structure Message where
  role : String
  content : String
  deriving DecidableEq, Repr

/-- Python `s[:n]` (slice by characters). -/
def takeChars (n : Nat) (s : String) : String :=
  String.mk (s.toList.take n)

/-! ## Memory manager (`MemoryManager`, `memory_manager.py`)

Redis is modelled as in-memory state: `turns` is the keyed turn log
(`memory:{task_id}:turn:{n}`), `maxTurn` the `max_turn` metadata field
updated by `_update_metadata`, and `summaries` the summary hash keyed by
range string.  Turn `timestamp` / `metadata` fields and key expirations carry
wall-clock data and are not modelled. -/

structure Turn where
  turn_num : Int
  user : String
  assistant : String
  actions : List String
  deriving DecidableEq, Repr

structure MemoryState where
  turns : Int → Option Turn
  maxTurn : Int
  summaries : List (String × String)

def emptyMemory : MemoryState :=
  { turns := fun _ => none, maxTurn := 0, summaries := [] }

/-- `MemoryManager.save_turn` (including `_update_metadata`). -/
def saveTurn (mem : MemoryState) (turnNum : Int) (user assistant : String)
    (actionsExecuted : List String) : MemoryState :=
  { turns := fun m =>
      if m = turnNum then some ⟨turnNum, user, assistant, actionsExecuted⟩ else mem.turns m,
    maxTurn := max mem.maxTurn turnNum,
    summaries := mem.summaries }

/-- `MemoryManager.get_turn`. -/
def getTurn (mem : MemoryState) (n : Int) : Option Turn :=
  mem.turns n

/-- Python `range(a, b + 1)` over integers. -/
def intRangeList (a b : Int) : List Int :=
  (List.range (b + 1 - a).toNat).map (fun (i : Nat) => a + (i : Int))

/-- `MemoryManager.get_turns_range`: walk `range(start, end + 1)` collecting
the turns that exist. -/
def getTurnsRange (mem : MemoryState) (a b : Int) : List Turn :=
  (intRangeList a b).filterMap mem.turns

/-- `MemoryManager.get_all_turns`. -/
def getAllTurns (mem : MemoryState) : List Turn :=
  if mem.maxTurn = 0 then [] else getTurnsRange mem 1 mem.maxTurn

/-- `MemoryManager._simple_summary`. -/
def simpleSummary (turns : List Turn) (a b : Int) : String :=
  String.intercalate "\n"
    (("[Summary of turns " ++ toString a ++ "-" ++ toString b ++ "]") ::
     turns.map (fun t =>
       "Turn " ++ toString t.turn_num ++ ": " ++
       (if t.actions.isEmpty then "thinking" else String.intercalate ", " t.actions)))

/-- The context block `_llm_summary` builds from the turns. -/
def llmSummaryContext (turns : List Turn) : String :=
  String.intercalate "\n" (List.flatten (turns.map (fun t =>
    ["Turn " ++ toString t.turn_num ++ ":",
     "Actions: " ++ String.intercalate ", " t.actions,
     "Result: " ++ takeChars 300 t.assistant ++ "...",
     ""])))

/-- The summarization request `_llm_summary` sends to the completion client. -/
def summaryMessages (turns : List Turn) (a b : Int) : List Message :=
  [⟨"system", "You are a helpful assistant that summarizes conversation history concisely."⟩,
   ⟨"user",
    "Summarize the following agent conversation turns (" ++ toString a ++ "-" ++ toString b ++
    ").\nFocus on: \n1. What actions were taken\n2. Key findings or results\n" ++
    "3. Any important files/data discovered\n\nKeep it under 200 words. \n\n" ++
    llmSummaryContext turns ++ "\n\nSummary:"⟩]

/-- `MemoryManager.summarize_turns`: read the turns afresh and generate a
summary — through the completion client when one is configured (falling back
to the simple listing if that call raises), otherwise the simple listing.
The saved-summary cache is never consulted. -/
def summarizeTurns (mem : MemoryState) (llm : Option (List Message → Except String String))
    (a b : Int) : String :=
  let turns := getTurnsRange mem a b
  if turns.isEmpty then "No turns found in range " ++ toString a ++ "-" ++ toString b
  else
    match llm with
    | none => simpleSummary turns a b
    | some f =>
      match f (summaryMessages turns a b) with
      | .ok s => "[Summary of turns " ++ toString a ++ "-" ++ toString b ++ "]\n" ++ s
      | .error _ => simpleSummary turns a b

/-- `MemoryManager.save_summary`: store under the range key, overwriting. -/
def saveSummary (mem : MemoryState) (turnRange summary : String) : MemoryState :=
  { mem with summaries := setParam mem.summaries turnRange summary }

/-- `MemoryManager.get_summary`. -/
def getSummary (mem : MemoryState) (turnRange : String) : Option String :=
  lookupParam mem.summaries turnRange

/-- The search loop of `MemoryManager.search_memory` (note the `>= limit`
check runs after every turn, matched or not). -/
def searchMemoryLoop (queryLower : String) (limit : Nat) (acc : List Turn) :
    List Turn → List Turn
  | [] => acc.reverse
  | t :: rest =>
    let content := pyLower t.user ++ " " ++ pyLower t.assistant ++ " " ++
      pyLower (String.intercalate " " t.actions)
    let acc' := if strContainsSub content queryLower then t :: acc else acc
    if acc'.length ≥ limit then acc'.reverse else searchMemoryLoop queryLower limit acc' rest

/-- `MemoryManager.search_memory`. -/
def searchMemory (mem : MemoryState) (query : String) (limit : Nat) : List Turn :=
  searchMemoryLoop (pyLower query) limit [] (getAllTurns mem)

/-! ## Orchestrator (`OrchestratorAgent`, `orchestrator.py`) -/

def MAX_ACTIVE_TURNS : Nat := 8
def TRUNCATE_ENV_RESPONSE : Nat := 2000

/-- `_load_system_message()`: the base message joined with `TASK_EXAMPLES`. -/
def systemMessage : String :=
  "You are an expert coding assistant with long-term memory capabilities. \n\n## Available Actions\n\n### File Operations\n- <read>file_path: path/to/file</read>\n- <write>file_path: path\ncontent:  content</write>\n- <edit>file_path: path\nold_string: old\nnew_string: new</edit>\n\n### Execution\n- <bash>cmd: command</bash>\n- <finish>completion message</finish>\n\n### Search (use quotes for patterns with *)\n- <grep>pattern: \"search_pattern\"\npath: directory</grep>\n- <glob>pattern: \"**/*.py\"\npath: directory</glob>\n\n### Memory Management (NEW!)\n- <recall>turn_range: \"5-10\"</recall> - Recall specific turns\n- <recall>query: \"login function\"</recall> - Search memory\n\n## Memory System\n\nYou have **long-term memory**:\n- All conversation history is preserved\n- When context is full, old turns are summarized but still accessible\n- Use <recall> to retrieve past information:  \n  * Recall specific turns:  `<recall>turn_range: \"5-10\"</recall>`\n  * Search for topics: `<recall>query: \"database schema\"</recall>`\n\n## Guidelines\n\n1. For complex tasks spanning many steps, use memory:  \n   - Early turns:  Explore and gather info\n   - Later turns: Recall findings and implement\n2. If you forget something from earlier, use <recall>\n3. Work incrementally - you have unlimited turns\n4. Use <finish> only when truly complete\n\n## Critical Rules\n\n1. After EVERY action, check if task is complete\n2. If file created successfully, use <finish> immediately:  \n   <finish>File /path/to/file created successfully</finish>\n3. Do NOT retry the same action multiple times\n4. Maximum 3 attempts per subtask\n\nBegin working!  \n\n\n## Common Task Examples\n\n### Example 1: Find all Python files in a directory\n<glob>\npattern: *.py\npath: app/core/\n</glob>\n\n### Example 2: Search for a pattern\n<grep>\npattern: async def\npath: app/\ninclude:  \"*.py\"\n</grep>\n\n### Example 3: Write a multiline file\n<write>\nfile_path: /tmp/summary.txt\ncontent: |\n  Project Analysis Summary\n  \n  Total files:  25\n  Total lines: 3500\n  \n  Main components:\n  - Parser:  handles action parsing\n  - Handler: executes actions\n  - Orchestrator: manages workflow\n</write>\n\n### Example 4: Read and analyze\n<read>\nfile_path:  app/core/agents/orchestrator.py\n</read>\n\nAfter reading, provide analysis in your response.  \n\n### Example 5: Complete task\n<finish>\nAnalysis complete.  Found 15 Python files across 3 directories. \nSummary saved to /tmp/report.txt\n</finish>\n\n## Remember:  \n- One parameter per line\n- Use pipe | for multiline content\n- Always use <finish> when done\n"

structure OrchState where
  messages : List Message
  done : Bool
  finishMessage : Option String
  currentTurn : Nat
  memory : MemoryState

/-- The collaborators of a run: the completion service (after the client's
internal retries — `.error` is the exception `get_completion` re-raises) and
the dispatcher's handler oracles. -/
structure OrchEnv where
  complete : List Message → Except String String
  handlers : Handlers

/-- First `FinishAction` of a batch, as scanned by the orchestrator's
`for action in other_actions: if isinstance(action, FinishAction): ... break`. -/
def firstFinish : List Action → Option String
  | [] => none
  | .finish m :: _ => some m
  | _ :: rest => firstFinish rest

/-- `OrchestratorAgent._format_results`. -/
def formatResults (results parseErrors : List String) : String :=
  let formatted := results.map (fun r =>
    if r.length > TRUNCATE_ENV_RESPONSE then
      takeChars TRUNCATE_ENV_RESPONSE r ++ "\n\n[...  Output truncated ...]"
    else r)
  let resultText := String.intercalate "\n\n" formatted
  if !parseErrors.isEmpty then
    let errSummary := String.intercalate "\n" (parseErrors.take 3)
    let errSummary :=
      if parseErrors.length > 3 then
        errSummary ++ "\n...  and " ++ toString (parseErrors.length - 3) ++ " more"
      else errSummary
    resultText ++ "\n\nParse errors:\n" ++ errSummary
  else resultText

/-- `OrchestratorAgent._format_recalled_turns`. -/
def formatRecalledTurns (turns : List Turn) (header : String) (truncateLen : Nat) : String :=
  String.intercalate "\n" (header :: List.flatten (turns.map (fun t =>
    let snippet := takeChars truncateLen t.assistant
    let snippet := if t.assistant.length > truncateLen then snippet ++ "..." else snippet
    ["\n**Turn " ++ toString t.turn_num ++ ":**",
     "Actions: " ++ String.intercalate ", " t.actions,
     "Result: " ++ snippet])))

/-- Python truthiness of an optional string field. -/
def pyTruthy : Option String → Bool
  | none => false
  | some s => s ≠ ""

/-- `start, end = map(int, turn_range.split("-"))`, `ValueError` as `none`. -/
def parseTurnRange (s : String) : Option (Int × Int) :=
  match (splitOnChar '-' s).map pyToInt with
  | [some a, some b] => some (a, b)
  | _ => none

/-- `OrchestratorAgent._handle_recall` (recall actions never arise from the
parser — `recall` has no `ACTION_TYPE_MAP` entry — but the branch is part of
the turn loop and is embedded for completeness). -/
def handleRecall (mem : MemoryState) : Action → String
  | .recall tr q limit =>
    if pyTruthy tr then
      let s := tr.getD ""
      match parseTurnRange s with
      | some (a, b) =>
        let turns := getTurnsRange mem a b
        if turns.isEmpty then "No turns found in range " ++ s
        else formatRecalledTurns turns ("Recalled turns " ++ s ++ ":") 300
      | none => "Invalid turn range format: " ++ s ++ " (use '5-10')"
    else if pyTruthy q then
      let qs := q.getD ""
      let results := searchMemory mem qs limit
      if results.isEmpty then "No results found for query: " ++ qs
      else formatRecalledTurns results ("Search results for '" ++ qs ++ "':") 200
    else "Recall requires either 'turn_range' or 'query'"
  | _ => ""

/-- `OrchestratorAgent._manage_memory`: when more than
`2 × MAX_ACTIVE_TURNS` non-system messages have accumulated (and a middle
section exists), summarize the corresponding turn range, save the summary
under its range key, and rebuild the window as
system + initial task + summary message + last 16 messages. -/
def manageMemoryCompact (env : OrchEnv) (st : OrchState) : OrchState :=
  let turnsToKeep := MAX_ACTIVE_TURNS * 2
  let startTurn : Int := max 1 ((st.currentTurn : Int) - (st.messages.length : Int) + 2)
  let endTurn : Int := (st.currentTurn : Int) - (turnsToKeep / 2 : Nat)
  let summaryText := summarizeTurns st.memory (some env.complete) startTurn endTurn
  let mem' := saveSummary st.memory (toString startTurn ++ "-" ++ toString endTurn) summaryText
  let summaryMsg : Message := ⟨"user", summaryText ++ "\n\n[Use <recall> to see details]"⟩
  { st with
    messages := [st.messages.getD 0 ⟨"", ""⟩, st.messages.getD 1 ⟨"", ""⟩, summaryMsg] ++
      st.messages.drop (st.messages.length - turnsToKeep),
    memory := mem' }

def manageMemory (env : OrchEnv) (st : OrchState) : OrchState :=
  if (st.messages.filter (fun m => m.role ≠ "system")).length ≤ MAX_ACTIVE_TURNS * 2 then st
  else if ((st.messages.length : Int) - (MAX_ACTIVE_TURNS * 2 : Nat) : Int) > 2 then
    manageMemoryCompact env st
  else st

/-- `self.messages[-1]["content"] if len(self.messages) > 1 else ""`. -/
def lastContent (msgs : List Message) : String :=
  if msgs.length > 1 then ((msgs.getLast?).map Message.content).getD "" else ""

/-- One iteration of the `while` body after the turn counter was bumped:
memory compaction, completion call, parse, recall/other split, dispatch,
finish scan, turn persistence and message appends; a raised completion
exception is caught by the turn-level `except` which appends an error
message and leaves everything else unchanged. -/
def turnStepError (st1 : OrchState) (e : String) : OrchState :=
  { st1 with
    messages := st1.messages ++
      [⟨"user", "Error:  " ++ e ++ "\n\nContinue or <finish> to report issue."⟩] }

def turnStepOk (env : OrchEnv) (st1 : OrchState) (llmOutput : String) : OrchState :=
  let parsed := parse llmOutput
  let actions := parsed.1
  let parseErrors := parsed.2
  let recallActions := actions.filter isRecallAct
  let otherActions := actions.filter (fun a => !isRecallAct a)
  let recallResults := recallActions.map (handleRecall st1.memory)
  let actionResults := execute env.handlers otherActions
  let finishMsg := firstFinish otherActions
  let doneNew := st1.done || finishMsg.isSome
  let actionNames := actions.map actionTypeName
  let resultText := formatResults (recallResults ++ actionResults) parseErrors
  let mem' := saveTurn st1.memory st1.currentTurn (lastContent st1.messages)
    llmOutput actionNames
  { st1 with
    done := doneNew,
    finishMessage := match finishMsg with | some m => some m | none => st1.finishMessage,
    memory := mem',
    messages := st1.messages ++ [⟨"assistant", llmOutput⟩] ++
      (if doneNew then []
       else [⟨"user", resultText ++ "\n\n[Turn " ++ toString st1.currentTurn ++
              "] Continue or <finish> when done."⟩]) }

def turnStep (env : OrchEnv) (st : OrchState) : OrchState :=
  match env.complete (manageMemory env st).messages with
  | .error e => turnStepError (manageMemory env st) e
  | .ok llmOutput => turnStepOk env (manageMemory env st) llmOutput

/-- The `while not self.done and self.current_turn < max_turns` loop.  The
fuel argument is `max_turns - current_turn`; `turnStep` never changes
`currentTurn` (only the increment before it does), so `fuel > 0` is exactly
the guard `current_turn < max_turns`. -/
def runLoop (env : OrchEnv) : Nat → OrchState → OrchState
  | 0, st => st
  | fuel + 1, st =>
    if st.done then st
    else runLoop env fuel (turnStep env { st with currentTurn := st.currentTurn + 1 })

/-- The two messages `run` starts from. -/
def initMessages (instruction : String) : List Message :=
  [⟨"system", systemMessage⟩,
   ⟨"user", "Task: " ++ instruction ++ "\n\nStart working on this task now."⟩]

def initState (instruction : String) : OrchState :=
  { messages := initMessages instruction, done := false, finishMessage := none,
    currentTurn := 0, memory := emptyMemory }

/-- The record `run` returns (`elapsed_time` is wall-clock and not modelled;
`memory_stats` is flattened into the two counters `get_memory_stats` reads
from the store). -/
structure RunResult where
  completed : Bool
  finishMessage : Option String
  turnsExecuted : Nat
  maxTurnsReached : Bool
  memTotalTurns : Int
  memSummaries : Nat
  deriving DecidableEq, Repr

/-- Loop exit: fill in the canned message when the run did not complete, then
assemble the result record. -/
def mkResult (maxTurns : Nat) (st : OrchState) : RunResult :=
  { completed := st.done,
    finishMessage :=
      if st.done then st.finishMessage
      else some ("Task incomplete:  reached maximum turns (" ++ toString maxTurns ++ ")"),
    turnsExecuted := st.currentTurn,
    maxTurnsReached := decide (st.currentTurn ≥ maxTurns),
    memTotalTurns := st.memory.maxTurn,
    memSummaries := st.memory.summaries.length }

/-- Final orchestrator state of `run(instruction, max_turns)`. -/
def runFinalState (env : OrchEnv) (maxTurns : Nat) (instruction : String) : OrchState :=
  runLoop env maxTurns (initState instruction)

/-- `OrchestratorAgent.run`. -/
def runOrch (env : OrchEnv) (maxTurns : Nat) (instruction : String) : RunResult :=
  mkResult maxTurns (runFinalState env maxTurns instruction)

/-! ## Concurrent create-if-absent (`RedisContextStore.add_context`)

`add_context` runs WATCH key → EXISTS → (return `False` if present) →
MULTI/HSET/EXEC, retrying on `WatchError`.  Per Redis transaction semantics a
watched EXEC aborts exactly when the key was modified between WATCH and EXEC.
The interleaving of `n` concurrent calls on the *same* key is modelled as a
small-step relation on a global state: `version` counts committed EXECs on
the key (an EXEC succeeds iff the version still equals the snapshot taken at
WATCH), `keyVal` is the stored record tagged with the client that wrote it,
and each client is between statements of `add_context`:

* `start` — about to WATCH;
* `watched v` — passed the EXISTS check (key absent) with version snapshot `v`;
* `done b` — returned `b`.

One step either performs WATCH+EXISTS (returning `False` on a present key),
a successful EXEC (key still unmodified), or a failed EXEC (`WatchError` →
`continue`, back to WATCH). -/

inductive CState where
  | start
  | watched (snapshot : Nat)
  | done (res : Bool)
  deriving DecidableEq, Repr

structure SysState (n : Nat) where
  version : Nat
  keyVal : Option (Fin n)
  clients : Fin n → CState

/-- Pointwise update of one client's local state. -/
def updClients {n : Nat} (f : Fin n → CState) (i : Fin n) (c : CState) : Fin n → CState :=
  fun j => if j = i then c else f j

inductive Step (n : Nat) : SysState n → SysState n → Prop where
  | checkHit (s : SysState n) (i : Fin n) :
      s.clients i = .start → s.keyVal.isSome →
      Step n s { s with clients := updClients s.clients i (.done false) }
  | checkMiss (s : SysState n) (i : Fin n) :
      s.clients i = .start → s.keyVal = none →
      Step n s { s with clients := updClients s.clients i (.watched s.version) }
  | execOk (s : SysState n) (i : Fin n) (v : Nat) :
      s.clients i = .watched v → s.version = v →
      Step n s { version := s.version + 1, keyVal := some i,
                 clients := updClients s.clients i (.done true) }
  | execFail (s : SysState n) (i : Fin n) (v : Nat) :
      s.clients i = .watched v → s.version ≠ v →
      Step n s { s with clients := updClients s.clients i .start }

/-- All clients about to call `add_context`; the key absent. -/
def initSys (n : Nat) : SysState n :=
  { version := 0, keyVal := none, clients := fun _ => .start }

/-- States reachable by interleaving the `n` calls. -/
def ReachableSys (n : Nat) (s : SysState n) : Prop :=
  Relation.ReflTransGen (Step n) (initSys n) s

/-! ## Auxiliary definitions used by the theorems below -/

/-- The model output contains no `<finish>` block: no scanned tag block has
tag name `finish` (case-insensitively). -/
def noFinishBlock (s : String) : Bool :=
  (findTagMatches s).all (fun p => pyLower p.1 != "finish")

/-- Handler oracles that always succeed with an empty result string. -/
def trivialHandlers : Handlers where
  bashH := fun _ _ => .ok ""
  readH := fun _ _ _ => .ok ""
  writeH := fun _ _ => .ok ""
  editH := fun _ _ _ _ => .ok ""
  grepH := fun _ _ _ => .ok ""
  globH := fun _ _ => .ok ""
  taskCreateH := fun _ _ _ _ _ _ => .ok ""

/-- A model whose replies never contain any tag block. -/
def c2Env : OrchEnv :=
  { complete := fun _ => .ok "thinking about it", handlers := trivialHandlers }

/-- A scripted model whose first-turn reply holds two finish blocks, the
`done` one second. -/
def c3Env : OrchEnv :=
  { complete := fun _ => .ok "<finish>first</finish> and <finish>done</finish>",
    handlers := trivialHandlers }

/-- A completion service that fails (post-retry) on every call. -/
def c4Env : OrchEnv :=
  { complete := fun _ => .error "rate limit exceeded", handlers := trivialHandlers }

/-- A scripted model that works on turn 1 and finishes on turn 2 (the initial
conversation has 2 messages; each completed turn appends 2 more). -/
def c10Env : OrchEnv :=
  { complete := fun msgs =>
      if msgs.length ≤ 2 then .ok "working <bash>cmd: ls</bash>" else .ok "<finish>ok</finish>",
    handlers := trivialHandlers }

/-- A store holding turns 1 and 2 plus a cached summary for range `1-2`. -/
def c7Mem : MemoryState :=
  saveSummary (saveTurn (saveTurn emptyMemory 1 "u1" "a1" ["BashAction"]) 2 "u2" "a2"
    ["WriteAction"]) "1-2" "CACHED"

/-- The turn record produced by the `n`-th `save_turn` call of the C8
scenario, with `d` giving each turn's user text, assistant text and action
names. -/
def mkTurn (d : Int → String × String × List String) (n : Int) : Turn :=
  ⟨n, (d n).1, (d n).2.1, (d n).2.2⟩

/-- A store on which `save_turn` has been called for turn numbers `1..N` in
order, starting from an empty store. -/
def buildStore (d : Int → String × String × List String) : Nat → MemoryState
  | 0 => emptyMemory
  | N + 1 =>
    saveTurn (buildStore d N) ((N : Int) + 1)
      (d ((N : Int) + 1)).1 (d ((N : Int) + 1)).2.1 (d ((N : Int) + 1)).2.2

/-- Inductive invariant of the `add_context` interleaving model: the key is
present exactly when a commit happened; any WATCH snapshot was taken at
version 0 (the key must have been absent); before any commit no call has
returned; at most one EXEC can ever commit; and once one has, its client is
the unique one that returned `True` and its record is what the key holds. -/
def SysInv {n : Nat} (s : SysState n) : Prop :=
  (s.keyVal = none ↔ s.version = 0) ∧
  (∀ i v, s.clients i = .watched v → v = 0) ∧
  (s.version = 0 → ∀ i b, s.clients i ≠ .done b) ∧
  s.version ≤ 1 ∧
  (s.version = 1 → ∃ i, s.clients i = .done true ∧ s.keyVal = some i ∧
    ∀ j, j ≠ i → s.clients j ≠ .done true)

/-- The all-returned state of a concrete two-client interleaving:
client 0 watches, commits; client 1 then observes the key and returns
`False`. -/
def c9FinalState : SysState 2 :=
  { version := 1, keyVal := some 0,
    clients := updClients (updClients (updClients (fun _ => .start) 0 (.watched 0))
      0 (.done true)) 1 (.done false) }

/-! # Theorems -/

/-! ## Shared lemmas: dispatcher -/

theorem execute_length (h : Handlers) (actions : List Action) :
    (execute h actions).length = actions.length := by
  induction actions with
  | nil => rfl
  | cons a rest ih => simp [execute, ih]

theorem execute_getElem (h : Handlers) (actions : List Action) (i : Nat) :
    (execute h actions)[i]? = (actions[i]?).map (singleResult h) := by
  induction actions generalizing i with
  | nil => simp [execute]
  | cons a rest ih => cases i <;> simp [execute, ih]

/-- C1: `execute(actions)` returns one result string per input action, in
input order; the i-th result is determined by the i-th action alone — a
handler exception becomes that action's failure-prefixed result string and
the remaining actions still produce theirs. -/
theorem dispatcher_batch_isolation (h : Handlers) (actions : List Action) :
    (execute h actions).length = actions.length ∧
    ∀ i : Nat, (execute h actions)[i]? = (actions[i]?).map (singleResult h) :=
  ⟨execute_length h actions, execute_getElem h actions⟩

/-! ## C6: write post-condition verification -/

/-- C6 counterexample: the python write succeeds, the file exists with 5
bytes, but reading it back yields `"DIFFERENT"` instead of the requested
`"hello"` — and `_handle_write` still returns the ✅ success result (the
mismatch is only logged), contradicting the claim that a failed
content-match verification yields a distinct non-success result. -/
theorem write_content_mismatch_counterexample :
    handleWrite
      { pythonWrite := .ok (), existsAfter := true, fileSize := 5,
        readBack := .ok "DIFFERENT", tempCreate := .ok "/tmp/tmpx",
        bashMove := .ok ("", 0), bashVerify := .ok ("", 0) }
      "/tmp/a.txt" "hello"
      = .ok "✅ File written: /tmp/a.txt (5 bytes, 1 lines)" ∧
    "DIFFERENT" ≠ "hello" := by
  constructor
  · rfl
  · decide

/-- C6 amended: after a write of non-empty content, the handler verifies that
the file exists and is non-empty, and a failure of either check (or of the
write itself, or of the re-read) diverts to the single bash fallback path,
whose own failures produce distinct error results; the content-match check,
however, reports success even when the re-read content differs from the
request. -/
theorem write_postcondition_amended (env : WriteEnv) (fp content : String)
    (hc : content ≠ "") (hne : pyStrip content ≠ "")
    (hw : env.pythonWrite = .ok ()) :
    (env.existsAfter = false →
      handleWrite env fp content =
        writeFallback env fp ("File does not exist after write: " ++ fp)) ∧
    (env.existsAfter = true → env.fileSize = 0 →
      handleWrite env fp content =
        writeFallback env fp ("File is empty after write: " ++ fp)) ∧
    (∀ e, env.existsAfter = true → env.fileSize ≠ 0 → env.readBack = .error e →
      handleWrite env fp content = writeFallback env fp e) ∧
    (∀ r, env.existsAfter = true → env.fileSize ≠ 0 → env.readBack = .ok r →
      handleWrite env fp content =
        .ok ("✅ File written: " ++ fp ++ " (" ++ toString env.fileSize ++
             " bytes, " ++ toString (pySplitlinesCount content) ++ " lines)")) := by
  refine ⟨?_, ?_, ?_, ?_⟩
  · intro hex
    simp [handleWrite, hc, hne, hw, hex]
  · intro hex hsz
    simp [handleWrite, hc, hne, hw, hex, hsz]
  · intro e hex hsz hrb
    simp [handleWrite, hc, hne, hw, hex, hsz, hrb]
  · intro r hex hsz hrb
    simp [handleWrite, hc, hne, hw, hex, hsz, hrb]

theorem write_postcondition_amended_witness :
    ("abc" : String) ≠ "" ∧ pyStrip "abc" ≠ "" ∧
    (∀ r, true = true → (3 : Nat) ≠ 0 → (Except.ok "abc" : Except String String) = .ok r →
      handleWrite
        { pythonWrite := .ok (), existsAfter := true, fileSize := 3,
          readBack := .ok "abc", tempCreate := .ok "/tmp/tmpx",
          bashMove := .ok ("", 0), bashVerify := .ok ("", 0) } "/tmp/b.txt" "abc" =
        .ok ("✅ File written: " ++ "/tmp/b.txt" ++ " (" ++ toString (3 : Nat) ++
             " bytes, " ++ toString (pySplitlinesCount "abc") ++ " lines)")) :=
  ⟨by decide, by decide,
   (write_postcondition_amended
     { pythonWrite := .ok (), existsAfter := true, fileSize := 3,
       readBack := .ok "abc", tempCreate := .ok "/tmp/tmpx",
       bashMove := .ok ("", 0), bashVerify := .ok ("", 0) }
     "/tmp/b.txt" "abc" (by decide) (by decide) rfl).2.2.2⟩

/-! ## C7: summary caching -/

/-- C7 counterexample: `c7Mem` holds turns 1 and 2 and a cached summary
`"CACHED"` under the range key `"1-2"`, yet `summarize_turns(1, 2)` ignores
the cache and generates a fresh summary (here through a configured
completion client returning `"FRESH"`), so a repeated compaction of the same
range re-summarizes instead of reusing the cached text. -/
theorem summary_cache_counterexample :
    getSummary c7Mem "1-2" = some "CACHED" ∧
    summarizeTurns c7Mem (some (fun _ => .ok "FRESH")) 1 2 =
      "[Summary of turns 1-2]\nFRESH" ∧
    ("[Summary of turns 1-2]\nFRESH" : String) ≠ "CACHED" := by
  refine ⟨rfl, rfl, by decide⟩

theorem find_map_replace (ps : List (String × String)) (k v : String)
    (h : ps.any (fun p => p.1 == k) = true) :
    (ps.map (fun p => if p.1 == k then (k, v) else p)).find? (fun p => p.1 == k)
      = some (k, v) := by
  induction ps with
  | nil => simp at h
  | cons p rest ih =>
    by_cases hp : (p.1 == k) = true
    · simp [List.find?, hp]
    · simp only [List.any_cons, Bool.or_eq_true] at h
      rcases h with h1 | h2
      · exact absurd h1 hp
      · have hp' : (p.1 == k) = false := by simpa using hp
        simp only [List.map_cons, hp', Bool.false_eq_true, if_false, List.find?]
        exact ih h2

theorem lookupParam_setParam (ps : List (String × String)) (k v : String) :
    lookupParam (setParam ps k v) k = some v := by
  unfold setParam
  split
  · rename_i hany
    unfold lookupParam
    rw [find_map_replace ps k v hany]
    rfl
  · rename_i hany
    unfold lookupParam
    rw [List.find?_append]
    have hnone : ps.find? (fun p => p.1 == k) = none := by
      rw [List.find?_eq_none]
      intro x hx
      intro hxk
      exact hany (List.any_eq_true.mpr ⟨x, hx, hxk⟩)
    rw [hnone]
    simp [List.find?]

/-- C7 amended: summaries are saved under their range key — `get_summary`
returns the last saved text for that key, and re-saving a range overwrites
the previous entry — but compaction never consults this cache:
`summarize_turns` reads only the stored turns, so its result is unchanged by
any cached summary and a repeated compaction of the same range performs a
fresh summarization (as the counterexample shows, calling the completion
client again). -/
theorem summary_cache_amended (mem : MemoryState)
    (llm : Option (List Message → Except String String)) (a b : Int)
    (key text prev : String) :
    getSummary (saveSummary mem key text) key = some text ∧
    getSummary (saveSummary (saveSummary mem key prev) key text) key = some text ∧
    summarizeTurns (saveSummary mem key text) llm a b = summarizeTurns mem llm a b := by
  refine ⟨lookupParam_setParam _ _ _, lookupParam_setParam _ _ _, rfl⟩

/-! ## C5: tag matching and case sensitivity -/

/-- C5 counterexample: the backreference `</\1>` matches case-sensitively, so
`<Finish>done</finish>` (differing open/close case) is not recognised at all,
while `<finish>done</finish>` parses to a finish action — contradicting the
claim that open and close tag names match regardless of letter case. -/
theorem parser_case_sensitivity_counterexample :
    parse "<Finish>done</finish>" = ([], []) ∧
    parse "<finish>done</finish>" = ([Action.finish "done"], []) := by
  constructor <;> rfl

/-- C5 amended: a block is recognised only when the closing tag repeats the
opening tag's exact text (case-sensitively); the matched tag name is then
lower-cased before dispatch, so two blocks whose tags agree up to case parse
identically (e.g. `<FINISH>…</FINISH>` behaves as `<finish>…</finish>`), and
blocks are returned in document order. -/
theorem parser_tag_case_amended (t₁ t₂ body : String) (h : pyLower t₁ = pyLower t₂) :
    parseBlocks [(t₁, body)] = parseBlocks [(t₂, body)] ∧
    parse "<FINISH>done</FINISH>" = parse "<finish>done</finish>" ∧
    parse "<finish>a</finish><bash>cmd: ls</bash>" =
      ([Action.finish "a", Action.bash "ls" 300], []) := by
  refine ⟨?_, rfl, rfl⟩
  simp [parseBlocks, h]

theorem parser_tag_case_amended_witness :
    pyLower "FINISH" = pyLower "finish" ∧
    parseBlocks [("FINISH", "done")] = parseBlocks [("finish", "done")] :=
  ⟨by decide, (parser_tag_case_amended "FINISH" "finish" "done" (by decide)).1⟩

/-! ## C8: range recall -/

theorem buildStore_turns (d : Int → String × String × List String) (N : Nat) (m : Int) :
    (buildStore d N).turns m =
      if 1 ≤ m ∧ m ≤ (N : Int) then some (mkTurn d m) else none := by
  induction N with
  | zero =>
    simp only [buildStore, emptyMemory]
    have : ¬(1 ≤ m ∧ m ≤ ((0 : Nat) : Int)) := by omega
    rw [if_neg this]
  | succ N ih =>
    simp only [buildStore, saveTurn]
    by_cases hm : m = (N : Int) + 1
    · subst hm
      rw [if_pos rfl, if_pos (by constructor <;> omega)]
      rfl
    · rw [if_neg hm, ih]
      by_cases h1 : 1 ≤ m ∧ m ≤ (N : Int)
      · rw [if_pos h1, if_pos ⟨h1.1, by omega⟩]
      · rw [if_neg h1, if_neg (by omega)]

theorem filterMap_ite (l : List Int) (p : Int → Prop) [DecidablePred p]
    (f : Int → Turn) :
    l.filterMap (fun n => if p n then some (f n) else none) =
      (l.filter (fun n => decide (p n))).map f := by
  induction l with
  | nil => rfl
  | cons x xs ih =>
    by_cases hx : p x
    · simp [List.filterMap_cons, List.filter_cons, hx, ih]
    · simp [List.filterMap_cons, List.filter_cons, hx, ih]

theorem mem_intRangeList (a b n : Int) : n ∈ intRangeList a b ↔ a ≤ n ∧ n ≤ b := by
  simp only [intRangeList, List.mem_map, List.mem_range]
  constructor
  · rintro ⟨i, hi, rfl⟩
    omega
  · rintro ⟨h1, h2⟩
    exact ⟨(n - a).toNat, by omega, by omega⟩

theorem intRangeList_pairwise (a b : Int) : (intRangeList a b).Pairwise (· < ·) := by
  unfold intRangeList
  exact (List.pairwise_lt_range _).map _ (fun i j hij => by omega)

/-- C8: after `save_turn` for turns `1..N`, `get_turns_range(a, b)` returns
exactly the stored turns with turn number in `[a, b] ∩ [1, N]` — no others —
in ascending turn-number order. -/
theorem get_turns_range_exact (d : Int → String × String × List String)
    (N : Nat) (a b : Int) :
    getTurnsRange (buildStore d N) a b =
      ((intRangeList a b).filter (fun n => decide (1 ≤ n ∧ n ≤ (N : Int)))).map (mkTurn d) ∧
    (∀ t, t ∈ getTurnsRange (buildStore d N) a b ↔
      ∃ n : Int, a ≤ n ∧ n ≤ b ∧ 1 ≤ n ∧ n ≤ (N : Int) ∧ t = mkTurn d n) ∧
    ((getTurnsRange (buildStore d N) a b).map Turn.turn_num).Pairwise (· < ·) := by
  have hrange : getTurnsRange (buildStore d N) a b =
      ((intRangeList a b).filter (fun n => decide (1 ≤ n ∧ n ≤ (N : Int)))).map (mkTurn d) := by
    unfold getTurnsRange
    have hcong : (intRangeList a b).filterMap (buildStore d N).turns =
        (intRangeList a b).filterMap
          (fun n => if 1 ≤ n ∧ n ≤ (N : Int) then some (mkTurn d n) else none) := by
      apply List.filterMap_congr
      intro n _
      exact buildStore_turns d N n
    rw [hcong, filterMap_ite]
  refine ⟨hrange, ?_, ?_⟩
  · intro t
    rw [hrange]
    simp only [List.mem_map, List.mem_filter, mem_intRangeList, decide_eq_true_eq]
    constructor
    · rintro ⟨n, ⟨⟨h1, h2⟩, h3, h4⟩, rfl⟩
      exact ⟨n, h1, h2, h3, h4, rfl⟩
    · rintro ⟨n, h1, h2, h3, h4, rfl⟩
      exact ⟨n, ⟨⟨h1, h2⟩, h3, h4⟩, rfl⟩
  · rw [hrange, List.map_map]
    have hcomp : (Turn.turn_num ∘ mkTurn d) = fun n => n := rfl
    rw [hcomp, List.map_id']
    exact List.Pairwise.filter _ (intRangeList_pairwise a b)

/-! ## Shared lemmas: parser output shape -/

theorem except_bind_ok {α β : Type} (e : Except String α) (f : α → Except String β)
    (b : β) : (e >>= f) = .ok b ↔ ∃ x, e = .ok x ∧ f x = .ok b := by
  cases e <;> simp [Bind.bind, Except.bind]

theorem construct_shape (c : ActionClass) (ps : List (String × String)) (a : Action)
    (h : construct c ps = .ok a) :
    isFinishAct a = decide (c = ActionClass.finishC) ∧ isRecallAct a = false := by
  cases c <;>
    simp only [construct, except_bind_ok, pure, Except.pure, Except.ok.injEq] at h
  case readC =>
    obtain ⟨_, -, _, -, _, -, rfl⟩ := h
    exact ⟨rfl, rfl⟩
  case writeC =>
    obtain ⟨_, -, _, -, rfl⟩ := h
    exact ⟨rfl, rfl⟩
  case editC =>
    obtain ⟨_, -, _, -, _, -, _, -, rfl⟩ := h
    exact ⟨rfl, rfl⟩
  case bashC =>
    obtain ⟨_, -, _, -, rfl⟩ := h
    exact ⟨rfl, rfl⟩
  case finishC =>
    obtain ⟨_, -, rfl⟩ := h
    exact ⟨rfl, rfl⟩
  case grepC =>
    obtain ⟨_, -, rfl⟩ := h
    exact ⟨rfl, rfl⟩
  case globC =>
    obtain ⟨_, -, rfl⟩ := h
    exact ⟨rfl, rfl⟩
  case taskCreateC =>
    obtain ⟨agentType, -, h⟩ := h
    split at h
    · simp only [except_bind_ok, pure, Except.pure, Except.ok.injEq] at h
      obtain ⟨_, -, _, -, _, -, _, -, _, -, _, -, rfl⟩ := h
      exact ⟨rfl, rfl⟩
    · exact absurd h (by simp)
  case launchC =>
    obtain ⟨_, -, rfl⟩ := h
    exact ⟨rfl, rfl⟩
  case reportC =>
    obtain ⟨_, -, _, -, rfl⟩ := h
    exact ⟨rfl, rfl⟩

theorem actionTypeMap_finishC (t : String) (h : actionTypeMap t = some .finishC) :
    t = "finish" := by
  unfold actionTypeMap at h
  split at h <;> simp_all

theorem parseSingleAction_not_finish (t b : String) (a : Action) (ht : t ≠ "finish")
    (h : parseSingleAction t b = .ok (some a)) : isFinishAct a = false := by
  unfold parseSingleAction at h
  split at h
  · simp at h
  · rename_i c hm
    split at h
    · rename_i hc
      exact absurd (actionTypeMap_finishC t (hc ▸ hm)) ht
    · rename_i hc
      cases hcons : construct c (parseParams (pyStrip b)) with
      | error e => rw [hcons] at h; simp [Except.map] at h
      | ok a' =>
        rw [hcons] at h
        simp only [Except.map, Except.ok.injEq, Option.some.injEq] at h
        subst h
        have := (construct_shape c _ a' hcons).1
        simpa [hc] using this

theorem parseSingleAction_not_recall (t b : String) (a : Action)
    (h : parseSingleAction t b = .ok (some a)) : isRecallAct a = false := by
  unfold parseSingleAction at h
  split at h
  · simp at h
  · rename_i c hm
    split at h
    · simp only [Except.ok.injEq, Option.some.injEq] at h
      subst h
      rfl
    · cases hcons : construct c (parseParams (pyStrip b)) with
      | error e => rw [hcons] at h; simp [Except.map] at h
      | ok a' =>
        rw [hcons] at h
        simp only [Except.map, Except.ok.injEq, Option.some.injEq] at h
        subst h
        exact (construct_shape c _ a' hcons).2

theorem parseBlocks_no_finish (ms : List (String × String))
    (hm : ∀ p ∈ ms, pyLower p.1 ≠ "finish") :
    ∀ a ∈ (parseBlocks ms).1, isFinishAct a = false := by
  induction ms with
  | nil => intro a ha; simp [parseBlocks] at ha
  | cons p rest ih =>
    obtain ⟨tag, body⟩ := p
    intro a ha
    have htag : pyLower tag ≠ "finish" := hm (tag, body) (List.mem_cons_self _ _)
    have hrest : ∀ q ∈ rest, pyLower q.1 ≠ "finish" :=
      fun q hq => hm q (List.mem_cons_of_mem _ hq)
    simp only [parseBlocks] at ha
    cases hps : parseSingleAction (pyLower tag) body with
    | ok oa =>
      cases oa with
      | some a0 =>
        rw [hps] at ha
        simp only [List.mem_cons] at ha
        rcases ha with rfl | ha
        · exact parseSingleAction_not_finish _ _ _ htag hps
        · exact ih hrest a ha
      | none =>
        rw [hps] at ha
        exact ih hrest a ha
    | error e =>
      rw [hps] at ha
      exact ih hrest a ha

theorem parseBlocks_no_recall (ms : List (String × String)) :
    ∀ a ∈ (parseBlocks ms).1, isRecallAct a = false := by
  induction ms with
  | nil => intro a ha; simp [parseBlocks] at ha
  | cons p rest ih =>
    obtain ⟨tag, body⟩ := p
    intro a ha
    simp only [parseBlocks] at ha
    cases hps : parseSingleAction (pyLower tag) body with
    | ok oa =>
      cases oa with
      | some a0 =>
        rw [hps] at ha
        simp only [List.mem_cons] at ha
        rcases ha with rfl | ha
        · exact parseSingleAction_not_recall _ _ _ hps
        · exact ih a ha
      | none =>
        rw [hps] at ha
        exact ih a ha
    | error e =>
      rw [hps] at ha
      exact ih a ha

theorem firstFinish_eq_none (l : List Action) (h : ∀ a ∈ l, isFinishAct a = false) :
    firstFinish l = none := by
  induction l with
  | nil => rfl
  | cons a rest ih =>
    have ha := h a (List.mem_cons_self _ _)
    have hrest := fun x hx => h x (List.mem_cons_of_mem a hx)
    cases a <;> first
      | exact ih hrest
      | simp [isFinishAct] at ha

theorem filter_not_recall_eq (l : List Action) (h : ∀ a ∈ l, isRecallAct a = false) :
    l.filter (fun a => !isRecallAct a) = l := by
  apply List.filter_eq_self.mpr
  intro a ha
  simp [h a ha]

/-! ## Shared lemmas: the orchestrator loop -/

theorem manageMemory_done (env : OrchEnv) (st : OrchState) :
    (manageMemory env st).done = st.done := by
  unfold manageMemory
  split
  · rfl
  · split
    · rfl
    · rfl

theorem manageMemory_currentTurn (env : OrchEnv) (st : OrchState) :
    (manageMemory env st).currentTurn = st.currentTurn := by
  unfold manageMemory
  split
  · rfl
  · split
    · rfl
    · rfl

theorem manageMemory_finishMessage (env : OrchEnv) (st : OrchState) :
    (manageMemory env st).finishMessage = st.finishMessage := by
  unfold manageMemory
  split
  · rfl
  · split
    · rfl
    · rfl

theorem turnStepOk_done (env : OrchEnv) (s1 : OrchState) (out : String) :
    (turnStepOk env s1 out).done =
      (s1.done || (firstFinish ((parse out).1.filter (fun a => !isRecallAct a))).isSome) :=
  rfl

theorem turnStepOk_finishMessage (env : OrchEnv) (s1 : OrchState) (out : String) :
    (turnStepOk env s1 out).finishMessage =
      (match firstFinish ((parse out).1.filter (fun a => !isRecallAct a)) with
       | some m => some m
       | none => s1.finishMessage) :=
  rfl

theorem turnStepOk_currentTurn (env : OrchEnv) (s1 : OrchState) (out : String) :
    (turnStepOk env s1 out).currentTurn = s1.currentTurn :=
  rfl

theorem turnStepOk_memory (env : OrchEnv) (s1 : OrchState) (out : String) :
    (turnStepOk env s1 out).memory =
      saveTurn s1.memory (s1.currentTurn : Int) (lastContent s1.messages) out
        ((parse out).1.map actionTypeName) :=
  rfl

theorem turnStepError_done (s1 : OrchState) (e : String) :
    (turnStepError s1 e).done = s1.done := rfl

theorem turnStepError_currentTurn (s1 : OrchState) (e : String) :
    (turnStepError s1 e).currentTurn = s1.currentTurn := rfl

theorem turnStep_currentTurn (env : OrchEnv) (st : OrchState) :
    (turnStep env st).currentTurn = st.currentTurn := by
  unfold turnStep
  cases hc : env.complete (manageMemory env st).messages with
  | error e =>
    exact (turnStepError_currentTurn (manageMemory env st) e).trans
      (manageMemory_currentTurn env st)
  | ok out =>
    exact (turnStepOk_currentTurn env (manageMemory env st) out).trans
      (manageMemory_currentTurn env st)

theorem turnStep_done_error (env : OrchEnv) (st : OrchState) (e : String)
    (hc : env.complete (manageMemory env st).messages = .error e) :
    (turnStep env st).done = st.done := by
  unfold turnStep
  rw [hc]
  exact (turnStepError_done (manageMemory env st) e).trans (manageMemory_done env st)

theorem turnStep_done_ok (env : OrchEnv) (st : OrchState) (out : String)
    (hc : env.complete (manageMemory env st).messages = .ok out) :
    (turnStep env st).done =
      (st.done ||
        (firstFinish ((parse out).1.filter (fun a => !isRecallAct a))).isSome) := by
  unfold turnStep
  rw [hc]
  rw [turnStepOk_done, manageMemory_done]

theorem turnStep_finishMessage_ok (env : OrchEnv) (st : OrchState) (out : String)
    (hc : env.complete (manageMemory env st).messages = .ok out) :
    (turnStep env st).finishMessage =
      (match firstFinish ((parse out).1.filter (fun a => !isRecallAct a)) with
       | some m => some m
       | none => st.finishMessage) := by
  unfold turnStep
  rw [hc]
  rw [turnStepOk_finishMessage, manageMemory_finishMessage]

theorem turnStep_memory_ok (env : OrchEnv) (st : OrchState) (out : String)
    (hc : env.complete (manageMemory env st).messages = .ok out) :
    (turnStep env st).memory =
      saveTurn (manageMemory env st).memory ((manageMemory env st).currentTurn : Int)
        (lastContent (manageMemory env st).messages) out
        ((parse out).1.map actionTypeName) := by
  unfold turnStep
  rw [hc]
  rw [turnStepOk_memory]

theorem runLoop_of_done (env : OrchEnv) (fuel : Nat) (st : OrchState)
    (h : st.done = true) : runLoop env fuel st = st := by
  cases fuel <;> simp [runLoop, h]

theorem runLoop_no_finish (env : OrchEnv)
    (H : ∀ msgs out, env.complete msgs = .ok out → noFinishBlock out = true) :
    ∀ (fuel : Nat) (st : OrchState), st.done = false →
      (runLoop env fuel st).done = false ∧
      (runLoop env fuel st).currentTurn = st.currentTurn + fuel := by
  intro fuel
  induction fuel with
  | zero => intro st h; simpa [runLoop] using h
  | succ fuel ih =>
    intro st h
    have hstep : ∀ st' : OrchState, st'.done = false →
        (turnStep env st').done = false := by
      intro st' h'
      cases hc : env.complete (manageMemory env st').messages with
      | error e => rw [turnStep_done_error env st' e hc]; exact h'
      | ok out =>
        rw [turnStep_done_ok env st' out hc]
        have hnf := H _ _ hc
        have h1 : ∀ a ∈ (parse out).1, isFinishAct a = false := by
          apply parseBlocks_no_finish
          intro p hp
          have := List.all_eq_true.mp hnf p hp
          simpa using this
        have h2 : firstFinish ((parse out).1.filter (fun a => !isRecallAct a)) = none := by
          apply firstFinish_eq_none
          intro a ha
          exact h1 a (List.mem_of_mem_filter ha)
        simp [h2, h']
    have hd : (turnStep env { st with currentTurn := st.currentTurn + 1 }).done = false :=
      hstep _ h
    have hrec := ih _ hd
    have hne : ¬(st.done = true) := by simp [h]
    constructor
    · rw [runLoop, if_neg hne]
      exact hrec.1
    · rw [runLoop, if_neg hne, hrec.2, turnStep_currentTurn]
      show st.currentTurn + 1 + fuel = st.currentTurn + (fuel + 1)
      omega

/-! ## C2: max-turns exhaustion -/

/-- C2: when the model's replies never contain a `<finish>` block, a run with
`max_turns = k ≥ 1` executes exactly `k` turns and ends with
`completed = false`, `max_turns_reached = true` and the canned incomplete
message. -/
theorem orchestrator_max_turns_exhaustion (env : OrchEnv) (k : Nat) (instr : String)
    (_hk : 1 ≤ k)
    (H : ∀ msgs out, env.complete msgs = .ok out → noFinishBlock out = true) :
    (runOrch env k instr).completed = false ∧
    (runOrch env k instr).turnsExecuted = k ∧
    (runOrch env k instr).maxTurnsReached = true ∧
    (runOrch env k instr).finishMessage =
      some ("Task incomplete:  reached maximum turns (" ++ toString k ++ ")") := by
  have h := runLoop_no_finish env H k (initState instr) rfl
  have hturn : (runLoop env k (initState instr)).currentTurn = k := by
    rw [h.2]
    simp [initState]
  refine ⟨?_, ?_, ?_, ?_⟩
  · simp [runOrch, runFinalState, mkResult, h.1]
  · simp [runOrch, runFinalState, mkResult, hturn]
  · simp [runOrch, runFinalState, mkResult, hturn]
  · simp [runOrch, runFinalState, mkResult, h.1, hturn]

theorem orchestrator_max_turns_exhaustion_witness :
    1 ≤ 2 ∧
    ((runOrch c2Env 2 "demo").completed = false ∧
     (runOrch c2Env 2 "demo").turnsExecuted = 2 ∧
     (runOrch c2Env 2 "demo").maxTurnsReached = true ∧
     (runOrch c2Env 2 "demo").finishMessage =
       some ("Task incomplete:  reached maximum turns (" ++ toString 2 ++ ")")) :=
  ⟨by decide,
   orchestrator_max_turns_exhaustion c2Env 2 "demo" (by decide)
     (fun msgs out h => by
       injection h with h'
       subst h'
       decide)⟩

/-! ## C3: first-turn finish -/

/-- C3 counterexample: the first-turn reply
`"<finish>first</finish> and <finish>done</finish>"` contains the block
`<finish>done</finish>` (it is among the scanned tag blocks), yet the run's
finish message is `"first"`, not `"done"`: the orchestrator's scan sets the
completion message from the *first* finish action of the batch. -/
theorem orchestrator_finish_contains_counterexample :
    ("finish", "done") ∈ findTagMatches "<finish>first</finish> and <finish>done</finish>" ∧
    (runOrch c3Env 5 "demo").completed = true ∧
    (runOrch c3Env 5 "demo").turnsExecuted = 1 ∧
    (runOrch c3Env 5 "demo").finishMessage = some "first" ∧
    (some "first" : Option String) ≠ some "done" := by
  refine ⟨by decide, rfl, rfl, rfl, by decide⟩

/-- C3 amended: when parsing the first-turn reply yields a batch whose *first*
Finish action carries the message `"done"`, the run terminates after exactly
1 turn with `completed = true` and `finish_message = "done"`; completion is
recorded only after the whole batch was dispatched — the persisted turn
records the action names of the entire parsed batch, including actions after
the Finish. -/
theorem orchestrator_first_turn_finish (env : OrchEnv) (k : Nat) (instr reply : String)
    (hk : 1 ≤ k)
    (hreply : env.complete (initMessages instr) = .ok reply)
    (hfin : firstFinish (parse reply).1 = some "done") :
    (runOrch env k instr).completed = true ∧
    (runOrch env k instr).finishMessage = some "done" ∧
    (runOrch env k instr).turnsExecuted = 1 ∧
    ((runFinalState env k instr).memory.turns 1).map Turn.actions =
      some ((parse reply).1.map actionTypeName) := by
  obtain ⟨j, rfl⟩ : ∃ j, k = j + 1 := ⟨k - 1, by omega⟩
  have hrl : runLoop env (j + 1) (initState instr) =
      runLoop env j (turnStep env { initState instr with currentTurn := 1 }) := by
    rw [runLoop, if_neg (by simp [initState])]
    rfl
  have hlen : (({ initState instr with currentTurn := 1 } : OrchState).messages).length = 2 :=
    rfl
  have hcond : ((({ initState instr with currentTurn := 1 } : OrchState).messages.filter
      (fun m => m.role ≠ "system")).length ≤ MAX_ACTIVE_TURNS * 2) := by
    refine le_trans (List.length_filter_le _ _) ?_
    rw [hlen]
    decide
  have hmm : manageMemory env { initState instr with currentTurn := 1 } =
      { initState instr with currentTurn := 1 } := by
    unfold manageMemory
    rw [if_pos hcond]
  have hcomp : env.complete
      (manageMemory env { initState instr with currentTurn := 1 }).messages = .ok reply := by
    rw [hmm]
    exact hreply
  have hnorecall : (parse reply).1.filter (fun a => !isRecallAct a) = (parse reply).1 :=
    filter_not_recall_eq _ (parseBlocks_no_recall _)
  have hdone : (turnStep env { initState instr with currentTurn := 1 }).done = true := by
    rw [turnStep_done_ok env _ reply hcomp, hnorecall, hfin]
    rfl
  have hfm : (turnStep env { initState instr with currentTurn := 1 }).finishMessage =
      some "done" := by
    rw [turnStep_finishMessage_ok env _ reply hcomp, hnorecall, hfin]
  have hct : (turnStep env { initState instr with currentTurn := 1 }).currentTurn = 1 :=
    turnStep_currentTurn env _
  have hmem : (turnStep env { initState instr with currentTurn := 1 }).memory.turns 1 =
      some ⟨1, lastContent (initMessages instr), reply,
        (parse reply).1.map actionTypeName⟩ := by
    rw [turnStep_memory_ok env _ reply hcomp, hmm]
    rfl
  have hloop : runLoop env (j + 1) (initState instr) =
      turnStep env { initState instr with currentTurn := 1 } := by
    rw [hrl, runLoop_of_done env j _ hdone]
  refine ⟨?_, ?_, ?_, ?_⟩
  · show (runLoop env (j + 1) (initState instr)).done = true
    rw [hloop]
    exact hdone
  · show (if (runLoop env (j + 1) (initState instr)).done then
        (runLoop env (j + 1) (initState instr)).finishMessage
      else some ("Task incomplete:  reached maximum turns (" ++ toString (j + 1) ++ ")")) =
      some "done"
    rw [hloop, hdone, hfm]
    rfl
  · show (runLoop env (j + 1) (initState instr)).currentTurn = 1
    rw [hloop]
    exact hct
  · show ((runLoop env (j + 1) (initState instr)).memory.turns 1).map Turn.actions =
      some ((parse reply).1.map actionTypeName)
    rw [hloop, hmem]
    rfl

theorem orchestrator_first_turn_finish_witness :
    1 ≤ 5 ∧
    ((runOrch ⟨fun _ => .ok "<finish>done</finish>", trivialHandlers⟩ 5 "demo").completed = true ∧
     (runOrch ⟨fun _ => .ok "<finish>done</finish>", trivialHandlers⟩ 5 "demo").finishMessage =
       some "done" ∧
     (runOrch ⟨fun _ => .ok "<finish>done</finish>", trivialHandlers⟩ 5 "demo").turnsExecuted = 1 ∧
     ((runFinalState ⟨fun _ => .ok "<finish>done</finish>", trivialHandlers⟩ 5 "demo").memory.turns
         1).map Turn.actions =
       some ((parse "<finish>done</finish>").1.map actionTypeName)) :=
  ⟨by decide,
   orchestrator_first_turn_finish ⟨fun _ => .ok "<finish>done</finish>", trivialHandlers⟩ 5
     "demo" "<finish>done</finish>" (by decide)
     rfl
     (by decide)⟩

/-! ## C4: retry, backoff and failure handling -/

/-- C4 counterexample: with a completion service that fails every call (the
post-retry exception surfacing to the orchestrator) and `max_turns = 3`, the
run does not transition to any failed terminal state: it continues through
all 3 turns and ends as an ordinary max-turns exhaustion
(`completed = false`, `max_turns_reached = true`). -/
theorem orchestrator_llm_failure_counterexample :
    (runOrch c4Env 3 "demo").turnsExecuted = 3 ∧
    (runOrch c4Env 3 "demo").completed = false ∧
    (runOrch c4Env 3 "demo").maxTurnsReached = true ∧
    (runOrch c4Env 3 "demo").finishMessage =
      some "Task incomplete:  reached maximum turns (3)" := by
  refine ⟨rfl, rfl, rfl, rfl⟩

/-- C4 amended: `get_completion` retries transient failures with exponential
backoff `min(2**attempt, 60)` seconds up to the fixed cap of `max_retries`
attempts (5 by default; the 60-second ceiling binds from attempt 6 on), then
surfaces the last error; the orchestrator catches that error at turn
granularity, feeds it back into the conversation, and continues with further
turns — there is no Failed terminal state, so an always-failing service ends
in max-turns exhaustion. -/
theorem llm_retry_backoff_turn_local (m : Nat → String) (e instr : String)
    (h : Handlers) (k : Nat) :
    getCompletion (fun i => .error (.transient (m i))) 5 = (.error (m 4), [1, 2, 4, 8]) ∧
    getCompletion (fun i => .error (.transient (m i))) 8 =
      (.error (m 7), [1, 2, 4, 8, 16, 32, 60]) ∧
    (runOrch ⟨fun _ => .error e, h⟩ k instr).completed = false ∧
    (runOrch ⟨fun _ => .error e, h⟩ k instr).turnsExecuted = k := by
  have H : ∀ msgs out, (⟨fun _ => .error e, h⟩ : OrchEnv).complete msgs = .ok out →
      noFinishBlock out = true := fun msgs out hc => Except.noConfusion hc
  have hr := runLoop_no_finish ⟨fun _ => .error e, h⟩ H k (initState instr) rfl
  refine ⟨rfl, rfl, ?_, ?_⟩
  · show (runLoop ⟨fun _ => .error e, h⟩ k (initState instr)).done = false
    exact hr.1
  · show (runLoop ⟨fun _ => .error e, h⟩ k (initState instr)).currentTurn = k
    rw [hr.2]
    simp [initState]

/-! ## C10: the two terminal flags are independent -/

/-- C10: in every run result `max_turns_reached` is computed as
`turns_executed ≥ max_turns`, independently of `completed`; a scripted run
that finishes via a Finish action on its final allowed turn (2 of 2) reports
both `completed = true` and `max_turns_reached = true`. -/
theorem max_turns_flag_independent :
    (∀ (env : OrchEnv) (k : Nat) (instr : String),
      (runOrch env k instr).maxTurnsReached =
        decide ((runOrch env k instr).turnsExecuted ≥ k)) ∧
    (runOrch c10Env 2 "demo").completed = true ∧
    (runOrch c10Env 2 "demo").maxTurnsReached = true ∧
    (runOrch c10Env 2 "demo").turnsExecuted = 2 := by
  refine ⟨fun env k instr => rfl, rfl, rfl, rfl⟩

/-! ## C9: concurrent create-if-absent -/

theorem updClients_same {n : Nat} (f : Fin n → CState) (i : Fin n) (c : CState) :
    updClients f i c i = c := by
  simp [updClients]

theorem updClients_ne {n : Nat} (f : Fin n → CState) (i j : Fin n) (c : CState)
    (h : j ≠ i) : updClients f i c j = f j := by
  simp [updClients, h]

theorem sysInv_init (n : Nat) : SysInv (initSys n) := by
  refine ⟨by simp [initSys], ?_, ?_, by simp [initSys], ?_⟩
  · intro i v h
    simp [initSys] at h
  · intro _ i b h
    simp [initSys] at h
  · intro h
    simp [initSys] at h

theorem sysInv_step {n : Nat} {s s' : SysState n} (hinv : SysInv s)
    (hstep : Step n s s') : SysInv s' := by
  obtain ⟨inv1, inv2, inv3, inv4, inv5⟩ := hinv
  cases hstep with
  | checkHit i h1 h2 =>
    have hver : s.version = 1 := by
      rcases Option.isSome_iff_exists.mp h2 with ⟨w, hw⟩
      have hne : ¬s.version = 0 := fun h0 => by rw [inv1.mpr h0] at hw; exact Option.noConfusion hw
      omega
    refine ⟨inv1, ?_, ?_, inv4, ?_⟩
    · intro j v hj
      dsimp only at hj
      by_cases hji : j = i
      · subst hji
        rw [updClients_same] at hj
        exact absurd hj (by simp)
      · rw [updClients_ne _ _ _ _ hji] at hj
        exact inv2 j v hj
    · intro h0
      dsimp only at h0
      omega
    · intro _
      obtain ⟨i0, hd, hkv, huniq⟩ := inv5 hver
      have hne : i0 ≠ i := fun he => by rw [he, h1] at hd; exact CState.noConfusion hd
      refine ⟨i0, ?_, hkv, ?_⟩
      · dsimp only
        rw [updClients_ne _ _ _ _ hne]
        exact hd
      · intro j hji0
        dsimp only
        by_cases hji : j = i
        · subst hji
          rw [updClients_same]
          simp
        · rw [updClients_ne _ _ _ _ hji]
          exact huniq j hji0
  | checkMiss i h1 h2 =>
    have hver : s.version = 0 := inv1.mp h2
    refine ⟨inv1, ?_, ?_, inv4, ?_⟩
    · intro j v hj
      dsimp only at hj
      by_cases hji : j = i
      · subst hji
        rw [updClients_same] at hj
        cases hj
        exact hver
      · rw [updClients_ne _ _ _ _ hji] at hj
        exact inv2 j v hj
    · intro h0 j b
      dsimp only at h0 ⊢
      by_cases hji : j = i
      · subst hji
        rw [updClients_same]
        simp
      · rw [updClients_ne _ _ _ _ hji]
        exact inv3 h0 j b
    · intro h1v
      dsimp only at h1v
      omega
  | execOk i v h1 h2 =>
    have hv0 : v = 0 := inv2 i v h1
    have hver : s.version = 0 := by omega
    refine ⟨?_, ?_, ?_, ?_, ?_⟩
    · dsimp only
      constructor
      · intro h
        exact absurd h (by simp)
      · intro h
        omega
    · intro j w hj
      dsimp only at hj
      by_cases hji : j = i
      · subst hji
        rw [updClients_same] at hj
        exact absurd hj (by simp)
      · rw [updClients_ne _ _ _ _ hji] at hj
        exact inv2 j w hj
    · intro h0
      dsimp only at h0
      omega
    · dsimp only
      omega
    · intro _
      refine ⟨i, ?_, rfl, ?_⟩
      · dsimp only
        exact updClients_same _ _ _
      · intro j hji
        dsimp only
        rw [updClients_ne _ _ _ _ hji]
        exact inv3 hver j true
  | execFail i v h1 h2 =>
    have hv0 : v = 0 := inv2 i v h1
    have hver : s.version = 1 := by omega
    refine ⟨inv1, ?_, ?_, inv4, ?_⟩
    · intro j w hj
      dsimp only at hj
      by_cases hji : j = i
      · subst hji
        rw [updClients_same] at hj
        exact absurd hj (by simp)
      · rw [updClients_ne _ _ _ _ hji] at hj
        exact inv2 j w hj
    · intro h0
      dsimp only at h0
      omega
    · intro _
      obtain ⟨i0, hd, hkv, huniq⟩ := inv5 hver
      have hne : i0 ≠ i := fun he => by rw [he, h1] at hd; exact CState.noConfusion hd
      refine ⟨i0, ?_, hkv, ?_⟩
      · dsimp only
        rw [updClients_ne _ _ _ _ hne]
        exact hd
      · intro j hji0
        dsimp only
        by_cases hji : j = i
        · subst hji
          rw [updClients_same]
          simp
        · rw [updClients_ne _ _ _ _ hji]
          exact huniq j hji0

theorem sysInv_reachable {n : Nat} {s : SysState n} (h : ReachableSys n s) : SysInv s := by
  induction h with
  | refl => exact sysInv_init n
  | tail _ hstep ih => exact sysInv_step ih hstep

/-- C9: in every interleaving of `n ≥ 1` concurrent `add_context` calls on the
same key in which all calls have returned, exactly one call returned `True`,
every other call returned `False`, and the stored record is the one written
by the single successful call (never silently overwritten). -/
theorem redis_create_if_absent_exclusive (n : Nat) (s : SysState n) (hn : 1 ≤ n)
    (hr : ReachableSys n s) (hdone : ∀ i, ∃ b, s.clients i = .done b) :
    ∃ i, s.clients i = .done true ∧ s.keyVal = some i ∧
      ∀ j, j ≠ i → s.clients j = .done false := by
  obtain ⟨inv1, inv2, inv3, inv4, inv5⟩ := sysInv_reachable hr
  have i0 : Fin n := ⟨0, by omega⟩
  have hver : s.version = 1 := by
    rcases Nat.lt_or_ge s.version 1 with hlt | hge
    · exfalso
      obtain ⟨b, hb⟩ := hdone i0
      exact inv3 (by omega) i0 b hb
    · omega
  obtain ⟨i, hd, hkv, huniq⟩ := inv5 hver
  refine ⟨i, hd, hkv, ?_⟩
  intro j hji
  obtain ⟨b, hb⟩ := hdone j
  cases b with
  | true => exact absurd hb (huniq j hji)
  | false => exact hb

theorem redis_create_if_absent_exclusive_witness :
    1 ≤ 2 ∧
    (∃ i : Fin 2, c9FinalState.clients i = .done true ∧ c9FinalState.keyVal = some i ∧
      ∀ j, j ≠ i → c9FinalState.clients j = .done false) :=
  ⟨by decide,
   redis_create_if_absent_exclusive 2 c9FinalState (by decide)
     (Relation.ReflTransGen.head (Step.checkMiss (initSys 2) 0 rfl rfl)
       (Relation.ReflTransGen.head (Step.execOk _ 0 0 rfl rfl)
         (Relation.ReflTransGen.single (Step.checkHit _ 1 rfl rfl))))
     (fun i => by fin_cases i <;> exact ⟨_, rfl⟩)⟩

end Agent
